import Mathlib

/-!
Shallow embedding of the `ock` row/column slicing engine
(src/selector.rs, src/main.rs, src/utils.rs).

Texts are modelled as `List Char`. Machine integers are modelled as
`Nat`/`Int` with the explicit constants `UMAX` (usize::MAX) and
`I64MAX` (i64::MAX); `Nat` subtraction is saturating, matching the
`saturating_sub` calls in the source. Regular expressions built by the
source always have the shape `(?i).*component.*`; they are modelled by
`Rgx` below, with a small matcher `patMatch` covering the regex
fragment that actually occurs in the statements of this development
(literal characters and the `.` wildcard, case-insensitive, unanchored
search). Regex-compilation failure (`SelectorError::InvalidRegex`) is
not modelled; all theorems use components inside the modelled fragment.
-/

/-- `usize::MAX` on a 64-bit target. -/
def UMAX : Nat := 2 ^ 64 - 1

/-- `i64::MAX`. -/
def I64MAX : Int := 2 ^ 63 - 1

/-- One token of the regex fragment we model: a literal character
(matched case-insensitively because every source pattern carries the
`(?i)` flag) or the `.` wildcard. -/
inductive PTok where
  | lit (c : Char)
  | dot
  deriving DecidableEq, Repr

/-- Does a single pattern token match a single character. -/
def tokMatches : PTok → Char → Bool
  | .dot, _ => true
  | .lit c, d => c.toLower == d.toLower

/-- Does the token list match a prefix of the text (the trailing `.*`
of the source patterns makes a prefix match sufficient). -/
def matchesAt : List PTok → List Char → Bool
  | [], _ => true
  | _ :: _, [] => false
  | p :: ps, c :: cs => tokMatches p c && matchesAt ps cs

/-- Unanchored search: the leading `.*` of the source patterns lets the
match start at any offset. -/
def patMatch (p : List PTok) : List Char → Bool
  | [] => matchesAt p []
  | c :: cs => matchesAt p (c :: cs) || patMatch p cs

/-- The token list of the regex `(?i).*component.*` that
`parse_selectors` builds from a non-integer component.  Faithful for
components whose characters are `.` or non-metacharacters. -/
def componentPattern (comp : List Char) : List PTok :=
  comp.map fun c => if c == '.' then PTok.dot else PTok.lit c

/-- Characters with no special regex meaning; `componentPattern` and
`patMatch` model the source faithfully on components made of these
characters plus `.`. -/
def regexPlainChar (c : Char) : Bool :=
  !(c ∈ ['.', '*', '+', '?', '(', ')', '[', ']', '\x7b', '\x7d', '|', '^', '$', '\\'])

/-- A `regex::Regex` field of `Selector`: either the default
never-matching pattern `.^` installed by `Selector::new`, or the
pattern `(?i).*comp.*` built from a clause component `comp`. -/
inductive Rgx where
  | dflt
  | pat (comp : List Char)
  deriving DecidableEq, Repr

/-- `Regex::is_match`. The default pattern `.^` matches nothing. -/
def Rgx.isMatch : Rgx → List Char → Bool
  | .dflt, _ => false
  | .pat comp, t => patMatch (componentPattern comp) t

/-- `utils::regex_eq`: compares the pattern strings; `.^` differs from
every `(?i).*c.*`, and two built patterns have equal strings exactly
when their components are equal. -/
def regexEq (a b : Rgx) : Bool := a == b

/-- `utils::regex_is_default`: the pattern string is `.^`. -/
def regexIsDefault : Rgx → Bool
  | .dflt => true
  | .pat _ => false

/-- The `Selector` struct of src/selector.rs, field for field. -/
structure Selector where
  start_idx : Int
  resolved_start_idx : Nat
  start_regex : Rgx
  end_idx : Int
  resolved_end_idx : Nat
  end_regex : Rgx
  step : Nat
  stopped : Bool
  indices_resolved : Bool
  deriving DecidableEq, Repr

/-- `Selector::new` (the default-regex compilation never fails, so the
`Result` wrapper is dropped). -/
def Selector.new : Selector :=
  { start_idx := 0
    resolved_start_idx := 0
    start_regex := .dflt
    end_idx := I64MAX
    resolved_end_idx := UMAX
    end_regex := .dflt
    step := 1
    stopped := false
    indices_resolved := false }

/-- `Selector::resolve_indices`.  The mutation of `self` becomes a
returned record.  In the source the end branch for an out-of-range
negative end index also overwrites `resolved_start_idx` to
`usize::MAX`; that overwrite is the `rs2` binding here. -/
def resolveIndices (s : Selector) (collection_length : Nat) : Selector :=
  if s.indices_resolved then s
  else
    let rs :=
      if s.start_idx < 0 then
        if (-s.start_idx).toNat > collection_length then 0
        else collection_length - (-s.start_idx).toNat
      else if s.start_idx = I64MAX then UMAX
      else if s.start_idx = 0 then 0
      else (s.start_idx - 1).toNat
    let rs2 :=
      if s.end_idx < 0 ∧ (-s.end_idx).toNat > collection_length then UMAX else rs
    let re :=
      if s.end_idx < 0 then
        if (-s.end_idx).toNat > collection_length then UMAX
        else if s.start_idx ≠ s.end_idx then
          collection_length - (-s.end_idx).toNat - 1
        else collection_length - (-s.end_idx).toNat
      else if s.end_idx = I64MAX then UMAX
      else if s.end_idx = 0 then 0
      else (s.end_idx - 1).toNat
    let final := if rs2 > re then (UMAX, UMAX) else (rs2, re)
    { s with resolved_start_idx := final.1, resolved_end_idx := final.2,
             indices_resolved := true }

/-- `Selector::reset_resolution`. -/
def resetResolution (s : Selector) : Selector :=
  { s with indices_resolved := false }

/-- The `SelectionState` struct of src/main.rs. -/
structure SelectionState where
  current_start_idx : Nat
  current_end_idx : Nat
  stopped : Bool
  deriving DecidableEq, Repr

/-- The fresh state built at each creation site in src/main.rs. -/
def freshState : SelectionState :=
  { current_start_idx := UMAX, current_end_idx := UMAX, stopped := false }

/-- The caller-visible effect of one call to
`item_in_sequence_with_state`: the returned bool, the value behind the
`&Selector` argument after the call (the function receives the
selector through a shared reference and only clones it, so this is the
unchanged input), and the `&mut SelectionState` argument after the
call. -/
structure MatchResult where
  member : Bool
  selector : Selector
  state : SelectionState
  deriving DecidableEq, Repr

/-- `item_in_sequence_with_state` of src/main.rs, branch for branch.
`temp_selector` is the resolved clone `t`. -/
def itemInSequenceWithState (item_idx : Nat) (item : List Char)
    (sel : Selector) (state : SelectionState) (collection_length : Nat) :
    MatchResult :=
  let t := resolveIndices sel collection_length
  if item_idx ≠ t.resolved_start_idx ∧ t.resolved_start_idx = t.resolved_end_idx ∧
      regexEq t.start_regex t.end_regex = true ∧ regexIsDefault t.start_regex = false then
    ⟨t.start_regex.isMatch item, sel, state⟩
  else if (item_idx = t.resolved_start_idx ∧ regexIsDefault t.start_regex = true) ∨
      t.start_regex.isMatch item = true then
    let st1 : SelectionState := { state with current_start_idx := item_idx }
    let st2 : SelectionState :=
      if (regexEq t.end_regex t.start_regex = true ∧
          regexIsDefault t.start_regex = false) ∨
          t.resolved_end_idx = t.resolved_start_idx then
        { st1 with stopped := true }
      else st1
    ⟨true, sel, st2⟩
  else if state.current_start_idx ≠ UMAX ∧
      ((item_idx = t.resolved_end_idx ∧ state.current_start_idx ≤ item_idx ∧
        (item_idx - state.current_start_idx) % t.step = 0) ∨
       t.end_regex.isMatch item = true) then
    ⟨true, sel, { state with current_end_idx := item_idx }⟩
  else if state.current_start_idx < item_idx ∧ item_idx < state.current_end_idx ∧
      (item_idx - state.current_start_idx) % t.step = 0 then
    ⟨true, sel, state⟩
  else
    ⟨false, sel, state⟩

/-- One linear scan of an item sequence against one selector, exactly
as the row loop of `main` drives it: strictly increasing indices, one
persistent `SelectionState`, the matcher consulted once per item.
Returns the 0-based indices reported as members. -/
def scanAux (sel : Selector) (collection_length : Nat) :
    Nat → SelectionState → List (List Char) → List Nat
  | _, _, [] => []
  | idx, st, item :: rest =>
    let r := itemInSequenceWithState idx item sel st collection_length
    if r.member then idx :: scanAux sel collection_length (idx + 1) r.state rest
    else scanAux sel collection_length (idx + 1) r.state rest

/-- Scan a whole sequence from index 0 with a fresh state, the
collection length being the sequence length (as in `main`). -/
def scanSelector (sel : Selector) (items : List (List Char)) : List Nat :=
  scanAux sel items.length 0 freshState items

/-- The inner loop of one row iteration of `main` (src/main.rs
407-420): the row selectors are consulted in clause order, each with
its own persisted state from `row_states`, and `main` pushes the
projected cells once per selector that reports membership.  Since the
pushed value is the same for every reporting selector, the emission
events are recorded as (row index, clause index) pairs, in push
order; `cidx` is the running clause index. -/
def rowStepAux (row_idx : Nat) (row : List Char) (collection_length : Nat) :
    Nat → List (Selector × SelectionState) →
      List (Nat × Nat) × List (Selector × SelectionState)
  | _, [] => ([], [])
  | cidx, pr :: rest =>
    let r := itemInSequenceWithState row_idx row pr.1 pr.2 collection_length
    let tail := rowStepAux row_idx row collection_length (cidx + 1) rest
    ((if r.member then [(row_idx, cidx)] else []) ++ tail.1, (pr.1, r.state) :: tail.2)

/-- The outer row loop of `main`: rows scanned once in strictly
increasing index order, the per-selector states threaded from row to
row. -/
def rowPhaseAux (collection_length : Nat) :
    Nat → List (Selector × SelectionState) → List (List Char) → List (Nat × Nat)
  | _, _, [] => []
  | ridx, pairs, row :: rest =>
    (rowStepAux ridx row collection_length 0 pairs).1 ++
      rowPhaseAux collection_length (ridx + 1)
        (rowStepAux ridx row collection_length 0 pairs).2 rest

/-- The row phase of `main`: every selector paired with a fresh
`SelectionState` (as `row_states` is initialized), the collection
length being the total row count. -/
def rowPhase (sels : List Selector) (rows : List (List Char)) : List (Nat × Nat) :=
  rowPhaseAux rows.length 0 (sels.map fun s => (s, freshState)) rows

/-- Default element for `getD` on selector/state pair lists. -/
def dPair : Selector × SelectionState := (Selector.new, freshState)

/-- The reasons carried by `SelectorError::InvalidSelector` in
src/selector.rs (the reason strings, as an enumeration). -/
inductive ParseReason where
  | stepNotPositive
  | stepNotInteger
  | tooManyComponents
  deriving DecidableEq, Repr

/-- `SelectorError::InvalidSelector`, carrying the offending clause
text.  `InvalidRegex` is not modelled (see the file header). -/
inductive SelErr where
  | invalidSelector (selector : List Char) (reason : ParseReason)
  deriving DecidableEq, Repr

/-- Digit-string accumulator for `str::parse::<i64>`. -/
def parseDigitsAux : List Char → Nat → Option Nat
  | [], acc => some acc
  | c :: cs, acc =>
    if c.isDigit then parseDigitsAux cs (acc * 10 + (c.toNat - '0'.toNat))
    else none

/-- All-digit string to `Nat`; fails on the empty string or any
non-digit. -/
def parseDigits : List Char → Option Nat
  | [] => none
  | c :: cs => parseDigitsAux (c :: cs) 0

/-- `str::parse::<i64>`: optional sign, decimal digits, i64 range
check (out-of-range numbers fail to parse and hence become patterns in
`parse_selectors`, as in the source). -/
def parseI64 (s : List Char) : Option Int :=
  match s with
  | '+' :: rest =>
    (parseDigits rest).bind fun n =>
      if (n : Int) ≤ I64MAX then some (n : Int) else none
  | '-' :: rest =>
    (parseDigits rest).bind fun n =>
      if (n : Int) ≤ I64MAX + 1 then some (-(n : Int)) else none
  | _ =>
    (parseDigits s).bind fun n =>
      if (n : Int) ≤ I64MAX then some (n : Int) else none

/-- The per-component loop of `parse_selectors`: `clause` is the full
clause text (used in error values), `noColon` is
`selector.matches(":").count() == 0`, `idx` the running `enumerate`
index (empty components are skipped but still consume an index), and
`acc` the selector under construction. -/
def parseCompsAux (clause : List Char) (noColon : Bool) :
    Nat → List (List Char) → Selector → Except SelErr Selector
  | _, [], acc => .ok acc
  | idx, comp :: rest, acc =>
    if comp.isEmpty then parseCompsAux clause noColon (idx + 1) rest acc
    else
      match parseI64 comp with
      | some n =>
        if idx = 0 then
          let acc := { acc with start_idx := n }
          let acc := if noColon then { acc with end_idx := n } else acc
          parseCompsAux clause noColon 1 rest acc
        else if idx = 1 then parseCompsAux clause noColon 2 rest { acc with end_idx := n }
        else if idx = 2 then
          if n ≤ 0 then .error (.invalidSelector clause .stepNotPositive)
          else parseCompsAux clause noColon 3 rest { acc with step := n.toNat }
        else .error (.invalidSelector clause .tooManyComponents)
      | none =>
        if idx = 0 then
          let acc := { acc with start_regex := Rgx.pat comp, start_idx := I64MAX }
          let acc := if noColon then { acc with end_regex := Rgx.pat comp } else acc
          parseCompsAux clause noColon 1 rest acc
        else if idx = 1 then parseCompsAux clause noColon 2 rest { acc with end_regex := Rgx.pat comp }
        else if idx = 2 then .error (.invalidSelector clause .stepNotInteger)
        else .error (.invalidSelector clause .tooManyComponents)

/-- Parse one comma-separated clause of `parse_selectors`. -/
def parseClause (clause : List Char) : Except SelErr Selector :=
  parseCompsAux clause (clause.count ':' == 0) 0 (clause.splitOn ':') Selector.new

/-- Sequence the clauses, stopping at the first error, preserving
order (the `for` loop plus `?` operator of `parse_selectors`). -/
def parseClauses : List (List Char) → Except SelErr (List Selector)
  | [] => .ok []
  | c :: cs =>
    match parseClause c with
    | .error e => .error e
    | .ok s =>
      match parseClauses cs with
      | .error e => .error e
      | .ok l => .ok (s :: l)

/-- `parse_selectors` of src/selector.rs. -/
def parseSelectors (selectors : List Char) : Except SelErr (List Selector) :=
  parseClauses (selectors.splitOn ',')

/-- `utils::split` for the empty delimiter: split the text into lines
and drop empty items (the non-empty-delimiter branch differs only in
the tokenizer and is not needed by the claims; `\r\n` line endings are
not modelled). -/
def utilsSplitEmptyDelim (text : List Char) : List (List Char) :=
  (text.splitOn '\n').filter fun l => !l.isEmpty

/-- The cell-collecting loop of `get_cells`: push every cell whose
index is contained in `cells_to_select`, in row order. -/
def getCellsAux (cells_to_select : List Nat) :
    Nat → List (List Char) → List (List Char)
  | _, [] => []
  | idx, c :: cs =>
    if cells_to_select.contains idx then
      c :: getCellsAux cells_to_select (idx + 1) cs
    else getCellsAux cells_to_select (idx + 1) cs

/-- `get_cells` of src/main.rs, specialized to the empty column
delimiter (line tokenization). -/
def getCells (row : List Char) (cells_to_select : List Nat)
    (select_full_row : Bool) : List (List Char) :=
  if cells_to_select.isEmpty then
    if select_full_row then [row] else []
  else getCellsAux cells_to_select 0 (utilsSplitEmptyDelim row)

/-- The nested loop of `get_columns_immutable`: for each column index
in order, for each selector in clause order, build a fresh
`SelectionState` and push the column index once per selector that
reports membership. -/
def colScanAux (sels : List Selector) (collection_length : Nat) :
    Nat → List (List Char) → List Nat
  | _, [] => []
  | idx, col :: rest =>
    (sels.filterMap fun s =>
      if (itemInSequenceWithState idx col s freshState collection_length).member
      then some idx else none)
      ++ colScanAux sels collection_length (idx + 1) rest

/-- `get_columns_immutable` of src/main.rs, specialized to the empty
column delimiter. -/
def getColumnsImmutable (index_row : List Char) (column_selectors : List Selector) :
    List Nat :=
  if column_selectors.isEmpty then []
  else
    colScanAux column_selectors (utilsSplitEmptyDelim index_row).length 0
      (utilsSplitEmptyDelim index_row)

/-- Written from the words of the spec sentence for C3: the item text
contains the component text, compared case-insensitively. -/
def containsCI (t comp : List Char) : Prop :=
  ∃ pre post, t.map Char.toLower = pre ++ comp.map Char.toLower ++ post

/-- Written from the amended words for C5: the items of the tokenized
row whose index appears in the export list, kept in row order, one
cell per distinct in-range index; with an empty export list the whole
untokenized row is emitted exactly when the caller supplied no column
clauses. -/
def projectionSpec (row : List Char) (sel : List Nat)
    (select_full_row : Bool) : List (List Char) :=
  if sel = [] then if select_full_row then [row] else []
  else
    ((List.range (utilsSplitEmptyDelim row).length).filter fun i =>
      sel.contains i).map fun i => (utilsSplitEmptyDelim row).getD i []

/-- The row clause `1:2:2` (start 1, end 2, step 2), as
`parse_selectors` builds it. -/
def c1sel : Selector := { Selector.new with start_idx := 1, end_idx := 2, step := 2 }

/-- C1: for the clause `a:b:s` = `1:2:2` with `1 ≤ a ≤ b ≤ N = 3` and
`s = 2 ≥ 1`, the claim says the scan reports exactly
`{0, 2, 4, ...} ∩ [0, 1] = {0}`; the code reports `{0, 2}`: once the
end transition misses (here because `(b - a) % s ≠ 0`), the middle
rule compares against `state.current_end_idx`, still `usize::MAX`, so
stride positions past the end bound keep matching. -/
theorem c1_scan_at_failing_input :
    parseSelectors ['1', ':', '2', ':', '2'] = .ok [c1sel] ∧
    scanSelector c1sel (List.replicate 3 []) = [0, 2] := by
  constructor <;> rfl

/-- The clause `1:-1` (start index 1, end index `-1`). -/
def c2sel : Selector := { Selector.new with start_idx := 1, end_idx := -1 }

/-- C2 counterexample: the claim says a negative end `-k` over length
`N = 5` resolves to `N - k = 4` inclusive, so `1:-1` selects offsets
0 through 4.  The code resolves the end to 3 (negative end indices are
exclusive when the raw start and end differ) and offset 4 is not a
member of the scan. -/
theorem c2_counterexample :
    (resolveIndices c2sel 5).resolved_end_idx = 3 ∧
    (resolveIndices c2sel 5).resolved_end_idx ≠ 5 - 1 ∧
    scanSelector c2sel (List.replicate 5 []) = [0, 1, 2, 3] := by
  refine ⟨rfl, by decide, rfl⟩

/-- A selector whose start is the out-of-range negative index `-10`
(length 5), everything else default. -/
def c4sel : Selector := { Selector.new with start_idx := -10 }

/-- C4 counterexample: the claim says an out-of-range negative start
bound makes the clause match nothing; the code clamps the resolved
start to 0 and the scan over 5 items matches every item. -/
theorem c4_counterexample :
    (resolveIndices c4sel 5).resolved_start_idx = 0 ∧
    scanSelector c4sel (List.replicate 5 []) = [0, 1, 2, 3, 4] := by
  exact ⟨rfl, rfl⟩

/-- A row of four line-delimited items `a`, `b`, `c`, `d`. -/
def c5row : List Char := ['a', '\n', 'b', '\n', 'c', '\n', 'd']

/-- C5 counterexample: with export list `[3, 1, 0]` the claim requires
one cell per export-list entry in collected order (`d`, `b`, `a`); the
code emits the cells in row order (`a`, `b`, `d`).  With the duplicate
export list `[1, 1]` the claim requires two cells; the code emits
one. -/
theorem c5_counterexample :
    getCells c5row [3, 1, 0] false = [['a'], ['b'], ['d']] ∧
    getCells c5row [3, 1, 0] false ≠ [['d'], ['b'], ['a']] ∧
    getCells c5row [1, 1] false = [['b']] := by
  refine ⟨rfl, by decide, rfl⟩

/-- A selector whose start is the out-of-range negative index `-7`
(length 3), everything else default. -/
def c7sel : Selector := { Selector.new with start_idx := -7 }

/-- C7 counterexample: the claim says a clause with an out-of-range
negative index contributes zero members to the scan; for an
out-of-range negative START the code clamps to the beginning and the
clause matches every item of a 3-item scan. -/
theorem c7_counterexample :
    scanSelector c7sel (List.replicate 3 []) = [0, 1, 2] ∧
    scanSelector c7sel (List.replicate 3 []) ≠ [] := by
  refine ⟨rfl, by decide⟩

/-- C8 counterexample: `1:2:3:` has four colon-separated components,
yet parsing succeeds, because the component after the third is empty
and the parser skips empty components before the arity check. -/
theorem c8_counterexample :
    (['1', ':', '2', ':', '3', ':'].splitOn ':').length = 4 ∧
    (parseSelectors ['1', ':', '2', ':', '3', ':']).isOk = true := by
  exact ⟨rfl, rfl⟩

/-- The single negative-index clause `-1`. -/
def c9sel : Selector := { Selector.new with start_idx := -1, end_idx := -1 }

/-- C9 counterexample: the claim says resolving an already-resolved
clause against a new length recomputes the offsets as a fresh
resolution would.  Resolving `-1` against length 5 and then against
length 3 keeps the stale offset 4; a fresh resolution against length 3
gives 2. -/
theorem c9_counterexample :
    (resolveIndices (resolveIndices c9sel 5) 3).resolved_start_idx = 4 ∧
    (resolveIndices c9sel 3).resolved_start_idx = 2 ∧
    resolveIndices (resolveIndices c9sel 5) 3 ≠ resolveIndices c9sel 3 := by
  refine ⟨rfl, rfl, by decide⟩

/-- C10: one call to `item_in_sequence_with_state` leaves the selector
argument completely unchanged — the function takes the selector behind
a shared reference, clones it for resolution, and writes only through
the state argument — for every item index, item text, state and
collection length. -/
theorem c10_matcher_preserves_selector (item_idx : Nat) (item : List Char)
    (sel : Selector) (st : SelectionState) (len : Nat) :
    (itemInSequenceWithState item_idx item sel st len).selector = sel ∧
    (itemInSequenceWithState item_idx item sel st len).selector.resolved_start_idx
      = sel.resolved_start_idx ∧
    (itemInSequenceWithState item_idx item sel st len).selector.resolved_end_idx
      = sel.resolved_end_idx ∧
    (itemInSequenceWithState item_idx item sel st len).selector.stopped
      = sel.stopped := by
  have h : (itemInSequenceWithState item_idx item sel st len).selector = sel := by
    unfold itemInSequenceWithState
    dsimp only
    repeat' split
    all_goals rfl
  exact ⟨h, by rw [h], by rw [h], by rw [h]⟩

lemma resolveIndices_flag (s : Selector) (L : Nat) :
    (resolveIndices s L).indices_resolved = true := by
  unfold resolveIndices
  dsimp only
  split
  · simp_all
  · rfl

lemma resolveIndices_of_resolved (s : Selector) (L : Nat)
    (h : s.indices_resolved = true) : resolveIndices s L = s := by
  unfold resolveIndices
  rw [if_pos h]

lemma resolveIndices_start_idx (s : Selector) (L : Nat) :
    (resolveIndices s L).start_idx = s.start_idx := by
  unfold resolveIndices; dsimp only; split <;> rfl

lemma resolveIndices_end_idx (s : Selector) (L : Nat) :
    (resolveIndices s L).end_idx = s.end_idx := by
  unfold resolveIndices; dsimp only; split <;> rfl

lemma resolveIndices_start_regex (s : Selector) (L : Nat) :
    (resolveIndices s L).start_regex = s.start_regex := by
  unfold resolveIndices; dsimp only; split <;> rfl

lemma resolveIndices_end_regex (s : Selector) (L : Nat) :
    (resolveIndices s L).end_regex = s.end_regex := by
  unfold resolveIndices; dsimp only; split <;> rfl

lemma resolveIndices_step (s : Selector) (L : Nat) :
    (resolveIndices s L).step = s.step := by
  unfold resolveIndices; dsimp only; split <;> rfl

lemma resolveIndices_stopped (s : Selector) (L : Nat) :
    (resolveIndices s L).stopped = s.stopped := by
  unfold resolveIndices; dsimp only; split <;> rfl

lemma resolveIndices_congr (a b : Selector) (L : Nat)
    (h1 : a.start_idx = b.start_idx) (h2 : a.end_idx = b.end_idx)
    (h3 : a.start_regex = b.start_regex) (h4 : a.end_regex = b.end_regex)
    (h5 : a.step = b.step) (h6 : a.stopped = b.stopped)
    (ha : a.indices_resolved = false) (hb : b.indices_resolved = false) :
    resolveIndices a L = resolveIndices b L := by
  cases a
  cases b
  dsimp only at h1 h2 h3 h4 h5 h6 ha hb
  subst h1 h2 h3 h4 h5 h6 ha hb
  rfl

/-- C9 amended: `resolve_indices` is idempotent — once resolved, every
further call (at any length) is a no-op, so resolving against a new
length keeps the stale offsets; a fresh resolution is obtained only
after `reset_resolution`, after which resolving against the new length
agrees exactly with a fresh resolution. -/
theorem c9_amended :
    (∀ (s : Selector) (L1 L2 : Nat),
      resolveIndices (resolveIndices s L1) L2 = resolveIndices s L1) ∧
    (∀ (s : Selector) (L1 L2 : Nat), s.indices_resolved = false →
      resolveIndices (resetResolution (resolveIndices s L1)) L2 = resolveIndices s L2) := by
  constructor
  · intro s L1 L2
    exact resolveIndices_of_resolved _ _ (resolveIndices_flag s L1)
  · intro s L1 L2 h
    apply resolveIndices_congr
    · rw [resetResolution, resolveIndices_start_idx]
    · rw [resetResolution, resolveIndices_end_idx]
    · rw [resetResolution, resolveIndices_start_regex]
    · rw [resetResolution, resolveIndices_end_regex]
    · rw [resetResolution, resolveIndices_step]
    · rw [resetResolution, resolveIndices_stopped]
    · rfl
    · exact h

/-- C9 witness: the single negative-index clause `-1`, resolved at
length 5 twice (idempotent no-op) and, after a reset, at length 3
(agreeing with a fresh resolution at length 3). -/
theorem c9_amended_witness :
    resolveIndices (resolveIndices c9sel 5) 5 = resolveIndices c9sel 5 ∧
    c9sel.indices_resolved = false ∧
    resolveIndices (resetResolution (resolveIndices c9sel 5)) 3 = resolveIndices c9sel 3 := by
  exact ⟨c9_amended.1 c9sel 5 5, rfl, c9_amended.2 c9sel 5 3 rfl⟩

lemma matchesAt_lit (comp : List Char) :
    ∀ t : List Char,
      (matchesAt (comp.map PTok.lit) t = true ↔
        ∃ rest, t.map Char.toLower = comp.map Char.toLower ++ rest) := by
  induction comp with
  | nil =>
    intro t
    simp [matchesAt]
  | cons c cs ih =>
    intro t
    cases t with
    | nil => simp [matchesAt]
    | cons d ds =>
      simp only [List.map_cons, matchesAt, Bool.and_eq_true, tokMatches,
        beq_iff_eq, List.cons_append, List.cons.injEq, ih ds]
      constructor
      · rintro ⟨h1, rest, h2⟩
        exact ⟨rest, h1.symm, h2⟩
      · rintro ⟨rest, h1, h2⟩
        exact ⟨h1.symm, rest, h2⟩

lemma patMatch_iff_drop (p : List PTok) :
    ∀ t : List Char,
      (patMatch p t = true ↔ ∃ i, matchesAt p (t.drop i) = true) := by
  intro t
  induction t with
  | nil =>
    constructor
    · intro h
      exact ⟨0, h⟩
    · rintro ⟨i, h⟩
      simpa [patMatch, List.drop_nil] using h
  | cons c cs ih =>
    simp only [patMatch, Bool.or_eq_true, ih]
    constructor
    · rintro (h | ⟨i, h⟩)
      · exact ⟨0, h⟩
      · exact ⟨i + 1, h⟩
    · rintro ⟨i, h⟩
      cases i with
      | zero => exact Or.inl h
      | succ j => exact Or.inr ⟨j, h⟩

lemma containsCI_iff_drop (t comp : List Char) :
    containsCI t comp ↔
      ∃ i rest, (t.drop i).map Char.toLower = comp.map Char.toLower ++ rest := by
  constructor
  · rintro ⟨pre, post, h⟩
    refine ⟨pre.length, post, ?_⟩
    rw [List.map_drop, h, List.append_assoc, List.drop_left]
  · rintro ⟨i, rest, h⟩
    refine ⟨(t.take i).map Char.toLower, rest, ?_⟩
    conv_lhs => rw [← List.take_append_drop i t]
    rw [List.map_append, h]
    exact (List.append_assoc _ _ _).symm

/-- C3 amended: a component that fails the integer parse is used as
the case-insensitive unanchored regex `(?i).*component.*`, in which
regex metacharacters keep their regex meaning; for components built
from plain (non-metacharacter) characters this coincides with
case-insensitive substring containment. -/
theorem c3_amended (comp t : List Char)
    (h : ∀ c ∈ comp, regexPlainChar c = true) :
    patMatch (componentPattern comp) t = true ↔ containsCI t comp := by
  have hlit : componentPattern comp = comp.map PTok.lit := by
    unfold componentPattern
    apply List.map_congr_left
    intro c hc
    have hp := h c hc
    have hdot : c ≠ '.' := by
      intro hrw
      subst hrw
      simp [regexPlainChar] at hp
    simp [hdot]
  rw [hlit, patMatch_iff_drop, containsCI_iff_drop]
  constructor
  · rintro ⟨i, hi⟩
    obtain ⟨rest, hr⟩ := (matchesAt_lit comp (t.drop i)).mp hi
    exact ⟨i, rest, hr⟩
  · rintro ⟨i, rest, hr⟩
    exact ⟨i, (matchesAt_lit comp (t.drop i)).mpr ⟨rest, hr⟩⟩

/-- C3 witness: the plain component `pid` matches `xPIDy` and this
agrees with case-insensitive containment, via the amended theorem at a
concrete input. -/
theorem c3_amended_witness :
    (∀ c ∈ ['p', 'i', 'd'], regexPlainChar c = true) ∧
    (patMatch (componentPattern ['p', 'i', 'd']) ['x', 'P', 'I', 'D', 'y'] = true ↔
      containsCI ['x', 'P', 'I', 'D', 'y'] ['p', 'i', 'd']) :=
  ⟨by decide, c3_amended ['p', 'i', 'd'] ['x', 'P', 'I', 'D', 'y'] (by decide)⟩

/-- C3 counterexample: the claim says a non-integer component is
treated as literal substring text for every component, including ones
with regex metacharacters.  The component `a.c` matches the item text
`abc` (the `.` is a regex wildcard), yet `abc` does not contain the
substring `a.c` in any letter case. -/
theorem c3_counterexample :
    Rgx.isMatch (Rgx.pat ['a', '.', 'c']) ['a', 'b', 'c'] = true ∧
    ¬ containsCI ['a', 'b', 'c'] ['a', '.', 'c'] := by
  constructor
  · rfl
  · rintro ⟨pre, post, h⟩
    have hlen := congrArg List.length h
    simp only [List.length_map, List.length_append] at hlen
    simp only [List.length_cons, List.length_nil] at hlen
    have hpre : pre = [] := by
      have : pre.length = 0 := by omega
      exact List.length_eq_zero.mp this
    have hpost : post = [] := by
      have : post.length = 0 := by omega
      exact List.length_eq_zero.mp this
    subst hpre hpost
    simp only [List.nil_append, List.append_nil] at h
    exact absurd h (by decide)

lemma matcher_noMatch (i len : Nat) (item : List Char) (sel : Selector)
    (st : SelectionState)
    (h1 : (resolveIndices sel len).resolved_start_idx = UMAX)
    (h2 : (resolveIndices sel len).resolved_end_idx = UMAX)
    (h3 : sel.start_regex = .dflt) (h4 : sel.end_regex = .dflt)
    (h5 : i < UMAX) (h6 : st.current_start_idx = UMAX) :
    itemInSequenceWithState i item sel st len = ⟨false, sel, st⟩ := by
  have hsr : (resolveIndices sel len).start_regex = Rgx.dflt := by
    rw [resolveIndices_start_regex, h3]
  have her : (resolveIndices sel len).end_regex = Rgx.dflt := by
    rw [resolveIndices_end_regex, h4]
  unfold itemInSequenceWithState
  dsimp only
  split
  next hc =>
    exfalso
    obtain ⟨-, -, -, hd⟩ := hc
    rw [hsr] at hd
    simp [regexIsDefault] at hd
  next =>
    split
    next hc =>
      exfalso
      rcases hc with ⟨heq, -⟩ | hm
      · rw [h1] at heq
        omega
      · rw [hsr] at hm
        simp [Rgx.isMatch] at hm
    next =>
      split
      next hc =>
        exact absurd h6 hc.1
      next =>
        split
        next hc =>
          exfalso
          have := hc.1
          rw [h6] at this
          omega
        next => rfl

lemma scanAux_noMatch (sel : Selector) (len : Nat)
    (h1 : (resolveIndices sel len).resolved_start_idx = UMAX)
    (h2 : (resolveIndices sel len).resolved_end_idx = UMAX)
    (h3 : sel.start_regex = .dflt) (h4 : sel.end_regex = .dflt) :
    ∀ (items : List (List Char)) (idx : Nat), idx + items.length ≤ UMAX →
      scanAux sel len idx freshState items = [] := by
  intro items
  induction items with
  | nil =>
    intro idx _
    rfl
  | cons it rest ih =>
    intro idx h
    have hlen : idx < UMAX ∧ (idx + 1) + rest.length ≤ UMAX := by
      simp only [List.length_cons] at h
      omega
    have hm : itemInSequenceWithState idx it sel freshState len = ⟨false, sel, freshState⟩ :=
      matcher_noMatch idx len it sel freshState h1 h2 h3 h4 hlen.1 rfl
    simp only [scanAux, hm]
    exact ih (idx + 1) hlen.2

/-- The clause `a:e` with two integer bounds, as `parse_selectors`
builds it (defaults from `Selector::new`, step 1). -/
def rangeSel (a e : Int) : Selector :=
  { Selector.new with start_idx := a, end_idx := e }

/-- A clause whose start bound is the negative index `-k` and whose
end is unbounded (for example the clause `-k:`). -/
def negStartSel (k : Nat) : Selector :=
  { Selector.new with start_idx := -(k : Int) }

/-- The clause `1:-k` (start index 1, negative end index `-k`). -/
def negEndSel (k : Nat) : Selector :=
  { Selector.new with start_idx := 1, end_idx := -(k : Int) }

/-- The clause `a:-k` (positive start, negative end). -/
def posNegSel (a k : Nat) : Selector :=
  { Selector.new with start_idx := (a : Int), end_idx := -(k : Int) }

/-- The single-bound clause `-k` (start and end both `-k`). -/
def negSingleSel (k : Nat) : Selector :=
  { Selector.new with start_idx := -(k : Int), end_idx := -(k : Int) }

/-- Shorthand for the record written back by `resolve_indices`: the
selector with its two resolved offsets filled in and the
`indices_resolved` flag set. -/
def resolvedAs (s : Selector) (rs re : Nat) : Selector :=
  { s with resolved_start_idx := rs, resolved_end_idx := re, indices_resolved := true }

lemma resolve_clamped_range (a e : Int) (L : Nat)
    (h1 : 1 ≤ e) (h2 : e < a) (h3 : a < I64MAX) :
    resolveIndices (rangeSel a e) L = resolvedAs (rangeSel a e) UMAX UMAX := by
  have hne : ¬(rangeSel a e).indices_resolved = true := by
    simp [rangeSel, Selector.new]
  unfold resolveIndices
  rw [if_neg hne]
  dsimp only [rangeSel, Selector.new, resolvedAs]
  simp only [if_neg (show ¬(a < 0) by omega),
    if_neg (show ¬(a = I64MAX) from ne_of_lt h3),
    if_neg (show ¬(a = 0) by omega),
    if_neg (show ¬(e < 0 ∧ (-e).toNat > L) by rintro ⟨hh, -⟩; omega),
    if_neg (show ¬(e < 0) by omega),
    if_neg (show ¬(e = I64MAX) from ne_of_lt (lt_trans h2 h3)),
    if_neg (show ¬(e = 0) by omega),
    if_pos (show (a - 1).toNat > (e - 1).toNat by omega)]

lemma resolve_neg_end_oor (k L : Nat) (hk : L < k) :
    resolveIndices (negEndSel k) L = resolvedAs (negEndSel k) UMAX UMAX := by
  have hne : ¬(negEndSel k).indices_resolved = true := by
    simp [negEndSel, Selector.new]
  unfold resolveIndices
  rw [if_neg hne]
  dsimp only [negEndSel, Selector.new, resolvedAs]
  simp only [if_neg (show ¬((1 : Int) < 0) by omega)]
  simp only [if_neg (show ¬((1 : Int) = I64MAX) by decide)]
  simp only [if_neg (show ¬((1 : Int) = 0) by decide)]
  simp only [if_pos (show -(k : Int) < 0 ∧ (-(-(k : Int))).toNat > L by
    constructor <;> omega)]
  simp only [if_pos (show -(k : Int) < 0 by omega)]
  simp only [if_pos (show (-(-(k : Int))).toNat > L by omega)]
  simp only [if_neg (show ¬(UMAX > UMAX) from lt_irrefl UMAX)]

lemma resolve_neg_start_oor (k L : Nat) (hk : L < k) :
    resolveIndices (negStartSel k) L = resolvedAs (negStartSel k) 0 UMAX := by
  have hne : ¬(negStartSel k).indices_resolved = true := by
    simp [negStartSel, Selector.new]
  unfold resolveIndices
  rw [if_neg hne]
  dsimp only [negStartSel, Selector.new, resolvedAs]
  simp only [if_pos (show -(k : Int) < 0 by omega)]
  simp only [if_pos (show (-(-(k : Int))).toNat > L by omega)]
  simp only [if_neg (show ¬(I64MAX < 0 ∧ (-I64MAX).toNat > L) by
    rintro ⟨hh, -⟩; exact absurd hh (by decide))]
  simp only [if_neg (show ¬(I64MAX < 0) by decide)]
  try simp only [if_pos (show I64MAX = I64MAX from rfl)]
  try simp only [if_neg (show ¬((0 : Nat) > UMAX) by omega)]
  try rfl

lemma resolve_pos_neg (a k N : Nat) (h1 : 1 ≤ a) (h2 : (a : Int) < I64MAX)
    (h3 : 1 ≤ k) (h4 : k ≤ N) (h5 : a ≤ N - k) :
    resolveIndices (posNegSel a k) N = resolvedAs (posNegSel a k) (a - 1) (N - k - 1) := by
  have hne : ¬(posNegSel a k).indices_resolved = true := by
    simp [posNegSel, Selector.new]
  unfold resolveIndices
  rw [if_neg hne]
  dsimp only [posNegSel, Selector.new, resolvedAs]
  simp only [if_neg (show ¬((a : Int) < 0) by omega)]
  simp only [if_neg (show ¬((a : Int) = I64MAX) from ne_of_lt h2)]
  simp only [if_neg (show ¬((a : Int) = 0) by omega)]
  simp only [if_neg (show ¬(-(k : Int) < 0 ∧ (-(-(k : Int))).toNat > N) by
    rintro ⟨-, hh⟩; omega)]
  simp only [if_pos (show -(k : Int) < 0 by omega)]
  simp only [if_neg (show ¬((-(-(k : Int))).toNat > N) by omega)]
  simp only [if_pos (show (a : Int) ≠ -(k : Int) by omega)]
  simp only [show ((a : Int) - 1).toNat = a - 1 by omega]
  simp only [show (-(-(k : Int))).toNat = k by omega]
  simp only [if_neg (show ¬(a - 1 > N - k - 1) by omega)]

lemma resolve_neg_single (k N : Nat) (h3 : 1 ≤ k) (h4 : k ≤ N) :
    resolveIndices (negSingleSel k) N = resolvedAs (negSingleSel k) (N - k) (N - k) := by
  have hne : ¬(negSingleSel k).indices_resolved = true := by
    simp [negSingleSel, Selector.new]
  unfold resolveIndices
  rw [if_neg hne]
  dsimp only [negSingleSel, Selector.new, resolvedAs]
  simp only [if_pos (show -(k : Int) < 0 by omega)]
  simp only [if_neg (show ¬((-(-(k : Int))).toNat > N) by omega)]
  simp only [if_neg (show ¬(-(k : Int) < 0 ∧ (-(-(k : Int))).toNat > N) by
    rintro ⟨-, hh⟩; omega)]
  simp only [if_neg (show ¬(-(k : Int) ≠ -(k : Int)) by simp)]
  simp only [show (-(-(k : Int))).toNat = k by omega]
  simp only [if_neg (show ¬(N - k > N - k) from lt_irrefl _)]

lemma matcher_start_hit (i len : Nat) (item : List Char) (sel : Selector)
    (st : SelectionState)
    (h1 : (resolveIndices sel len).resolved_start_idx = i)
    (h3 : sel.start_regex = .dflt) :
    (itemInSequenceWithState i item sel st len).member = true := by
  have hsr : (resolveIndices sel len).start_regex = Rgx.dflt := by
    rw [resolveIndices_start_regex, h3]
  unfold itemInSequenceWithState
  dsimp only
  rw [if_neg (show ¬(i ≠ (resolveIndices sel len).resolved_start_idx ∧ _) by
    rintro ⟨hne, -⟩; exact hne h1.symm)]
  rw [if_pos (Or.inl ⟨h1.symm, by rw [hsr]; rfl⟩)]

/-- C2 amended: a negative end index `-k` on a sequence of length `N`
(`1 ≤ k ≤ N`) is exclusive when the raw start and end differ: a clause
`a:-k` (with `1 ≤ a ≤ N - k`, so the window is nonempty) resolves its
end to `N - k - 1`; only a single-bound clause `-k` (raw start equal
to raw end) resolves start and end to `N - k`. -/
theorem c2_amended :
    (∀ (a k N : Nat), 1 ≤ a → (a : Int) < I64MAX → 1 ≤ k → k ≤ N → a ≤ N - k →
      (resolveIndices (posNegSel a k) N).resolved_start_idx = a - 1 ∧
      (resolveIndices (posNegSel a k) N).resolved_end_idx = N - k - 1) ∧
    (∀ (k N : Nat), 1 ≤ k → k ≤ N →
      (resolveIndices (negSingleSel k) N).resolved_start_idx = N - k ∧
      (resolveIndices (negSingleSel k) N).resolved_end_idx = N - k) := by
  constructor
  · intro a k N h1 h2 h3 h4 h5
    rw [resolve_pos_neg a k N h1 h2 h3 h4 h5]
    exact ⟨rfl, rfl⟩
  · intro k N h3 h4
    rw [resolve_neg_single k N h3 h4]
    exact ⟨rfl, rfl⟩

/-- C2 witness: `1:-1` over length 5 resolves to the window `[0, 3]`
(matching the unit test pinning `resolved_end_idx = 3`), and the
single clause `-1` over length 5 resolves to `[4, 4]`. -/
theorem c2_amended_witness :
    (resolveIndices (posNegSel 1 1) 5).resolved_start_idx = 0 ∧
    (resolveIndices (posNegSel 1 1) 5).resolved_end_idx = 3 ∧
    (resolveIndices (negSingleSel 1) 5).resolved_start_idx = 4 ∧
    (resolveIndices (negSingleSel 1) 5).resolved_end_idx = 4 := by
  obtain ⟨hr, he⟩ :=
    c2_amended.1 1 1 5 (by decide) (by decide) (by decide) (by decide) (by decide)
  obtain ⟨hr2, he2⟩ := c2_amended.2 1 5 (by decide) (by decide)
  exact ⟨hr, he, hr2, he2⟩

/-- C4 amended: an out-of-range negative start bound (`-k` with
`k > N`) is clamped to index 0 rather than disabling the clause: the
resolved start is 0 and the scan reports the very first item (and,
with the default unbounded end, the following stride positions) as
members. -/
theorem c4_amended (k : Nat) (items : List (List Char))
    (h1 : items.length < k) (h2 : items ≠ []) :
    (resolveIndices (negStartSel k) items.length).resolved_start_idx = 0 ∧
    0 ∈ scanSelector (negStartSel k) items := by
  have hres := resolve_neg_start_oor k items.length h1
  constructor
  · rw [hres]
    rfl
  · obtain ⟨it, rest, hcons⟩ := List.exists_cons_of_ne_nil h2
    subst hcons
    have hm : (itemInSequenceWithState 0 it (negStartSel k) freshState
        (it :: rest).length).member = true := by
      apply matcher_start_hit
      · rw [hres]
        rfl
      · rfl
    unfold scanSelector
    simp only [scanAux]
    rw [if_pos hm]
    exact List.mem_cons_self 0 _

/-- C4 witness: the clause `-9` scanned over 4 items resolves its
start to 0 and reports item 0 as a member. -/
theorem c4_amended_witness :
    (resolveIndices (negStartSel 9) (List.replicate 4 ([] : List Char)).length).resolved_start_idx
      = 0 ∧
    0 ∈ scanSelector (negStartSel 9) (List.replicate 4 ([] : List Char)) :=
  c4_amended 9 (List.replicate 4 []) (by decide) (by decide)

/-- C7 amended: resolution-stage conditions never raise errors —
`5:3` parses successfully — and a clause whose resolved start exceeds
its resolved end (`a:e` with `1 ≤ e < a`) or whose negative END index
is out of range (`1:-k` with `k > N`) contributes zero members to the
scan; an out-of-range negative START index, however, clamps to the
sequence start instead of matching nothing. -/
theorem c7_amended :
    parseSelectors ['5', ':', '3'] = .ok [rangeSel 5 3] ∧
    (∀ (a e : Int) (items : List (List Char)), 1 ≤ e → e < a → a < I64MAX →
      items.length ≤ UMAX → scanSelector (rangeSel a e) items = []) ∧
    (∀ (k : Nat) (items : List (List Char)), items.length < k →
      items.length ≤ UMAX → scanSelector (negEndSel k) items = []) := by
  refine ⟨rfl, ?_, ?_⟩
  · intro a e items h1 h2 h3 h4
    have hres := resolve_clamped_range a e items.length h1 h2 h3
    unfold scanSelector
    apply scanAux_noMatch
    · rw [hres]
      rfl
    · rw [hres]
      rfl
    · rfl
    · rfl
    · omega
  · intro k items h1 h4
    have hres := resolve_neg_end_oor k items.length h1
    unfold scanSelector
    apply scanAux_noMatch
    · rw [hres]
      rfl
    · rw [hres]
      rfl
    · rfl
    · rfl
    · omega

/-- C7 witness: `5:3` over 6 items and `1:-10` over 5 items both scan
to the empty member set, via the amended theorem at concrete
inputs. -/
theorem c7_amended_witness :
    scanSelector (rangeSel 5 3) (List.replicate 6 ([] : List Char)) = [] ∧
    scanSelector (negEndSel 10) (List.replicate 5 ([] : List Char)) = [] :=
  ⟨c7_amended.2.1 5 3 (List.replicate 6 []) (by decide) (by decide) (by decide)
      (by norm_num [UMAX]),
    c7_amended.2.2 10 (List.replicate 5 []) (by decide) (by norm_num [UMAX])⟩

lemma getCellsAux_eq_range' (sel : List Nat) :
    ∀ (l : List (List Char)) (idx : Nat),
      getCellsAux sel idx l =
        ((List.range' idx l.length).filter fun i => sel.contains i).map
          fun i => l.getD (i - idx) [] := by
  intro l
  induction l with
  | nil =>
    intro idx
    rfl
  | cons c cs ih =>
    intro idx
    have hmap :
        ((List.range' (idx + 1) cs.length).filter fun i => sel.contains i).map
            (fun i => (c :: cs).getD (i - idx) []) =
          ((List.range' (idx + 1) cs.length).filter fun i => sel.contains i).map
            (fun i => cs.getD (i - (idx + 1)) []) := by
      apply List.map_congr_left
      intro i hi
      have hmem := List.of_mem_filter hi
      have hrange := List.mem_filter.mp hi
      have hge : idx + 1 ≤ i := (List.mem_range'_1.mp hrange.1).1
      have hstep : i - idx = (i - (idx + 1)) + 1 := by omega
      rw [hstep, List.getD_cons_succ]
    rw [List.length_cons, List.range'_succ idx cs.length 1, List.filter_cons]
    by_cases h : sel.contains idx
    · simp only [getCellsAux, if_pos h, List.map_cons]
      rw [ih (idx + 1)]
      rw [Nat.sub_self, List.getD_cons_zero, hmap]
    · simp only [getCellsAux, if_neg h, Bool.false_eq_true, if_false]
      rw [ih (idx + 1)]
      rw [hmap]

/-- C5 amended: when the export list is nonempty, projection emits the
items of the tokenized row whose index appears in the export list, in
row order, once per distinct in-range index (order and multiplicity of
the export list itself are irrelevant); when the export list is empty,
the whole untokenized row is emitted as a single field exactly when
the caller supplied no column clauses (`select_full_row`). -/
theorem c5_amended (row : List Char) (sel : List Nat) (select_full_row : Bool) :
    getCells row sel select_full_row = projectionSpec row sel select_full_row := by
  unfold getCells projectionSpec
  by_cases h : sel = []
  · subst h
    rfl
  · rw [if_neg (by simpa using h), if_neg h]
    rw [getCellsAux_eq_range' sel (utilsSplitEmptyDelim row) 0]
    rw [List.range_eq_range' (utilsSplitEmptyDelim row).length]
    apply List.map_congr_left
    intro i _
    rw [Nat.sub_zero]

lemma count_filterMap_const (sels : List Selector) (f : Selector → Bool)
    (idx i : Nat) :
    List.count i (sels.filterMap fun s => if f s then some idx else none) =
      if idx = i then sels.countP f else 0 := by
  induction sels with
  | nil => simp
  | cons s ss ih =>
    by_cases h : f s
    · simp [List.filterMap_cons, h, List.count_cons, List.countP_cons, ih]
      by_cases hi : idx = i
      · subst hi
        simp
      · simp [hi, Ne.symm hi]
    · simp [List.filterMap_cons, h, List.countP_cons, ih]

lemma colScanAux_count (sels : List Selector) (len : Nat) :
    ∀ (cols : List (List Char)) (idx i : Nat),
      List.count i (colScanAux sels len idx cols) =
        if idx ≤ i ∧ i - idx < cols.length then
          sels.countP fun s =>
            (itemInSequenceWithState i (cols.getD (i - idx) []) s freshState len).member
        else 0 := by
  intro cols
  induction cols with
  | nil =>
    intro idx i
    simp only [colScanAux, List.count_nil, List.length_nil]
    rw [if_neg (by omega)]
  | cons col rest ih =>
    intro idx i
    simp only [colScanAux, List.count_append, count_filterMap_const]
    rw [ih (idx + 1) i, List.length_cons]
    rcases Nat.lt_trichotomy idx i with hlt | heq | hgt
    · rw [if_neg (show ¬(idx = i) by omega)]
      have hgd : (col :: rest).getD (i - idx) ([] : List Char) =
          rest.getD (i - (idx + 1)) [] := by
        rw [show i - idx = (i - (idx + 1)) + 1 by omega, List.getD_cons_succ]
      rw [hgd]
      by_cases hc : idx + 1 ≤ i ∧ i - (idx + 1) < rest.length
      · rw [if_pos hc, if_pos (by omega), Nat.zero_add]
      · rw [if_neg hc, if_neg (by omega)]
    · subst heq
      rw [if_pos rfl, if_neg (show ¬(idx + 1 ≤ idx ∧ _) by rintro ⟨hh, -⟩; omega)]
      rw [if_pos (show idx ≤ idx ∧ idx - idx < rest.length + 1 by omega)]
      rw [Nat.sub_self, List.getD_cons_zero, Nat.add_zero]
    · rw [if_neg (show ¬(idx = i) by omega),
        if_neg (show ¬(idx + 1 ≤ i ∧ i - (idx + 1) < rest.length) by
          rintro ⟨hh, -⟩; omega),
        if_neg (show ¬(idx ≤ i ∧ i - idx < rest.length + 1) by
          rintro ⟨hh, -⟩; omega)]

lemma parseCompsAux_ok_tail_empty (clause : List Char) (nc : Bool) :
    ∀ (comps : List (List Char)) (idx : Nat) (acc out : Selector),
      parseCompsAux clause nc idx comps acc = .ok out →
      ∀ j comp, comps.get? j = some comp → 3 ≤ idx + j → comp = [] := by
  intro comps
  induction comps with
  | nil =>
    intro idx acc out h j comp hj hge
    simp at hj
  | cons c cs ih =>
    intro idx acc out h j comp hj hge
    unfold parseCompsAux at h
    cases j with
    | zero =>
      have hc : c = comp := by simpa using hj
      subst hc
      by_cases hce : c.isEmpty
      · simpa using hce
      · exfalso
        rw [if_neg hce] at h
        cases hp : parseI64 c with
        | some n =>
          rw [hp] at h
          dsimp only at h
          rw [if_neg (show ¬(idx = 0) by omega), if_neg (show ¬(idx = 1) by omega),
            if_neg (show ¬(idx = 2) by omega)] at h
          simp at h
        | none =>
          rw [hp] at h
          dsimp only at h
          rw [if_neg (show ¬(idx = 0) by omega), if_neg (show ¬(idx = 1) by omega),
            if_neg (show ¬(idx = 2) by omega)] at h
          simp at h
    | succ j' =>
      have hj' : cs.get? j' = some comp := by simpa using hj
      by_cases hce : c.isEmpty
      · rw [if_pos hce] at h
        exact ih (idx + 1) acc out h j' comp hj' (by omega)
      · rw [if_neg hce] at h
        cases hp : parseI64 c with
        | some n =>
          rw [hp] at h
          dsimp only at h
          by_cases h0 : idx = 0
          · rw [if_pos h0] at h
            exact ih 1 _ out h j' comp hj' (by omega)
          · rw [if_neg h0] at h
            by_cases hone : idx = 1
            · rw [if_pos hone] at h
              exact ih 2 _ out h j' comp hj' (by omega)
            · rw [if_neg hone] at h
              by_cases h2 : idx = 2
              · rw [if_pos h2] at h
                by_cases hn : n ≤ 0
                · rw [if_pos hn] at h
                  simp at h
                · rw [if_neg hn] at h
                  exact ih 3 _ out h j' comp hj' (by omega)
              · rw [if_neg h2] at h
                simp at h
        | none =>
          rw [hp] at h
          dsimp only at h
          by_cases h0 : idx = 0
          · rw [if_pos h0] at h
            exact ih 1 _ out h j' comp hj' (by omega)
          · rw [if_neg h0] at h
            by_cases hone : idx = 1
            · rw [if_pos hone] at h
              exact ih 2 _ out h j' comp hj' (by omega)
            · rw [if_neg hone] at h
              by_cases h2 : idx = 2
              · rw [if_pos h2] at h
                simp at h
              · rw [if_neg h2] at h
                simp at h

lemma parseClauses_ok_mem :
    ∀ (cls : List (List Char)) (sels : List Selector),
      parseClauses cls = .ok sels →
      ∀ c ∈ cls, ∃ s, parseClause c = .ok s := by
  intro cls
  induction cls with
  | nil =>
    intro sels h c hc
    simp at hc
  | cons c0 cs ih =>
    intro sels h c hc
    unfold parseClauses at h
    cases hp : parseClause c0 with
    | error e =>
      rw [hp] at h
      simp at h
    | ok s0 =>
      rw [hp] at h
      cases hr : parseClauses cs with
      | error e =>
        rw [hr] at h
        simp at h
      | ok l =>
        rcases List.mem_cons.mp hc with rfl | hmem
        · exact ⟨s0, hp⟩
        · exact ih l hr c hmem

/-- C8 amended: a clause is rejected for arity (error naming the
clause) exactly when some component at position four or later is
non-empty — `1:2:3:4` errors with the clause text attached — while a
clause whose components beyond the third are all empty parses
successfully: whenever parsing succeeds, every component of every
clause at 0-based index 3 or later is the empty string. -/
theorem c8_amended :
    parseSelectors ['1', ':', '2', ':', '3', ':', '4'] =
      .error (.invalidSelector ['1', ':', '2', ':', '3', ':', '4'] .tooManyComponents) ∧
    (∀ (s : List Char) (sels : List Selector), parseSelectors s = .ok sels →
      ∀ clause ∈ s.splitOn ',', ∀ j comp,
        (clause.splitOn ':').get? j = some comp → 3 ≤ j → comp = []) := by
  constructor
  · rfl
  · intro s sels hok clause hmem j comp hj hge
    obtain ⟨sc, hsc⟩ := parseClauses_ok_mem (s.splitOn ',') sels hok clause hmem
    unfold parseClause at hsc
    exact parseCompsAux_ok_tail_empty clause _ _ 0 _ sc hsc j comp hj (by omega)

/-- The selector parsed from `1:2:3:` (start 1, end 2, step 3; the
trailing empty component is skipped). -/
def c8sel : Selector := { Selector.new with start_idx := 1, end_idx := 2, step := 3 }

/-- C8 witness: `1:2:3:` parses successfully, its component at index 3
exists, and the amended theorem applied at this concrete input
confirms that component is empty. -/
theorem c8_amended_witness :
    parseSelectors ['1', ':', '2', ':', '3', ':'] = .ok [c8sel] ∧
    (['1', ':', '2', ':', '3', ':'].splitOn ':').get? 3 = some [] ∧
    ([] : List Char) = [] :=
  ⟨rfl, rfl,
    c8_amended.2 ['1', ':', '2', ':', '3', ':'] [c8sel] rfl
      ['1', ':', '2', ':', '3', ':'] (by decide) 3 [] rfl (by omega)⟩

lemma flatMap_congr_of_mem {α β : Type} (l : List α) (f g : α → List β)
    (h : ∀ a ∈ l, f a = g a) : l.flatMap f = l.flatMap g := by
  induction l with
  | nil => rfl
  | cons a rest ih =>
    simp only [List.flatMap_cons]
    rw [h a (List.mem_cons_self a rest),
      ih fun x hx => h x (List.mem_cons_of_mem a hx)]

lemma getD_map_of_lt {α β : Type} (l : List α) (f : α → β) (j : Nat)
    (d : β) (d' : α) (h : j < l.length) :
    (l.map f).getD j d = f (l.getD j d') := by
  induction l generalizing j with
  | nil => simp at h
  | cons a rest ih =>
    cases j with
    | zero => rfl
    | succ j' =>
      simp only [List.map_cons, List.getD_cons_succ]
      exact ih j' (by simpa using h)

lemma scanAux_ge (sel : Selector) (len : Nat) :
    ∀ (items : List (List Char)) (idx : Nat) (st : SelectionState) (m : Nat),
      m ∈ scanAux sel len idx st items → idx ≤ m := by
  intro items
  induction items with
  | nil =>
    intro idx st m h
    simp [scanAux] at h
  | cons it rest ih =>
    intro idx st m h
    simp only [scanAux] at h
    by_cases hm : (itemInSequenceWithState idx it sel st len).member = true
    · rw [if_pos hm] at h
      rcases List.mem_cons.mp h with rfl | h2
      · exact Nat.le_refl m
      · have := ih (idx + 1) _ m h2
        omega
    · rw [if_neg hm] at h
      have := ih (idx + 1) _ m h
      omega

lemma rowStepAux_snd (ridx : Nat) (row : List Char) (len : Nat) :
    ∀ (pairs : List (Selector × SelectionState)) (cidx : Nat),
      (rowStepAux ridx row len cidx pairs).2 =
        pairs.map fun pr =>
          (pr.1, (itemInSequenceWithState ridx row pr.1 pr.2 len).state) := by
  intro pairs
  induction pairs with
  | nil =>
    intro cidx
    rfl
  | cons pr rest ih =>
    intro cidx
    simp only [rowStepAux, List.map_cons]
    rw [ih (cidx + 1)]

lemma rowStepAux_fst (ridx : Nat) (row : List Char) (len : Nat) :
    ∀ (pairs : List (Selector × SelectionState)) (cidx : Nat),
      (rowStepAux ridx row len cidx pairs).1 =
        ((List.range' cidx pairs.length).filter fun j =>
          (itemInSequenceWithState ridx row (pairs.getD (j - cidx) dPair).1
            (pairs.getD (j - cidx) dPair).2 len).member).map fun j => (ridx, j) := by
  intro pairs
  induction pairs with
  | nil =>
    intro cidx
    rfl
  | cons pr rest ih =>
    intro cidx
    have hmap :
        ((List.range' (cidx + 1) rest.length).filter fun j =>
            (itemInSequenceWithState ridx row ((pr :: rest).getD (j - cidx) dPair).1
              ((pr :: rest).getD (j - cidx) dPair).2 len).member) =
          ((List.range' (cidx + 1) rest.length).filter fun j =>
            (itemInSequenceWithState ridx row (rest.getD (j - (cidx + 1)) dPair).1
              (rest.getD (j - (cidx + 1)) dPair).2 len).member) := by
      apply List.filter_congr
      intro j hj
      have hge : cidx + 1 ≤ j := (List.mem_range'_1.mp hj).1
      rw [show j - cidx = (j - (cidx + 1)) + 1 by omega, List.getD_cons_succ]
    simp only [rowStepAux, List.length_cons, List.range'_succ cidx rest.length 1,
      List.filter_cons]
    rw [ih (cidx + 1), hmap, Nat.sub_self]
    by_cases hm :
        (itemInSequenceWithState ridx row ((pr :: rest).getD 0 dPair).1
          ((pr :: rest).getD 0 dPair).2 len).member = true
    · rw [if_pos hm]
      have hm0 : (itemInSequenceWithState ridx row pr.1 pr.2 len).member = true := by
        simpa using hm
      rw [if_pos hm0, List.map_cons]
      rfl
    · rw [if_neg hm]
      have hm0 : ¬(itemInSequenceWithState ridx row pr.1 pr.2 len).member = true := by
        simpa using hm
      rw [if_neg hm0]
      rfl

lemma scanAux_cons_mem_self (sel : Selector) (len idx : Nat)
    (st : SelectionState) (it : List Char) (rest : List (List Char)) :
    decide (idx ∈ scanAux sel len idx st (it :: rest)) =
      (itemInSequenceWithState idx it sel st len).member := by
  by_cases hm : (itemInSequenceWithState idx it sel st len).member = true
  · rw [hm]
    simp only [scanAux]
    simp only [if_pos hm]
    simp
  · have hf : (itemInSequenceWithState idx it sel st len).member = false :=
      Bool.not_eq_true _ ▸ Bool.of_not_eq_true hm
    rw [hf]
    simp only [scanAux]
    simp only [if_neg hm]
    rw [decide_eq_false]
    intro hmem
    have := scanAux_ge sel len rest (idx + 1) _ idx hmem
    omega

lemma scanAux_cons_mem_gt (sel : Selector) (len idx r : Nat)
    (st : SelectionState) (it : List Char) (rest : List (List Char))
    (h : idx < r) :
    (r ∈ scanAux sel len idx st (it :: rest)) ↔
      r ∈ scanAux sel len (idx + 1)
        (itemInSequenceWithState idx it sel st len).state rest := by
  simp only [scanAux]
  by_cases hm : (itemInSequenceWithState idx it sel st len).member = true
  · simp only [if_pos hm]
    constructor
    · intro hmem
      rcases List.mem_cons.mp hmem with rfl | h2
      · omega
      · exact h2
    · intro hmem
      exact List.mem_cons_of_mem idx hmem
  · simp only [if_neg hm]

lemma rowPhaseAux_eq (len : Nat) :
    ∀ (rows : List (List Char)) (ridx : Nat)
      (pairs : List (Selector × SelectionState)),
      rowPhaseAux len ridx pairs rows =
        (List.range' ridx rows.length).flatMap fun r =>
          ((List.range' 0 pairs.length).filter fun j =>
            decide (r ∈ scanAux (pairs.getD j dPair).1 len ridx
              (pairs.getD j dPair).2 rows)).map fun j => (r, j) := by
  intro rows
  induction rows with
  | nil =>
    intro ridx pairs
    rfl
  | cons row rest ih =>
    intro ridx pairs
    simp only [rowPhaseAux]
    rw [rowStepAux_fst, rowStepAux_snd, ih]
    rw [List.length_cons, List.range'_succ ridx rest.length 1, List.flatMap_cons]
    congr 1
    · congr 1
      apply List.filter_congr
      intro j hj
      rw [Nat.sub_zero]
      exact (scanAux_cons_mem_self (pairs.getD j dPair).1 len ridx
        (pairs.getD j dPair).2 row rest).symm
    · apply flatMap_congr_of_mem
      intro r hr
      have hge : ridx + 1 ≤ r := (List.mem_range'_1.mp hr).1
      congr 1
      rw [List.length_map]
      apply List.filter_congr
      intro j hj
      have hjlt : j < pairs.length := by
        have := (List.mem_range'_1.mp hj).2
        omega
      rw [getD_map_of_lt pairs _ j dPair dPair hjlt]
      rw [decide_eq_decide]
      exact (scanAux_cons_mem_gt (pairs.getD j dPair).1 len ridx r
        (pairs.getD j dPair).2 row rest (by omega)).symm

lemma filterMap_eq_filter_map (sels : List Selector) (p : Selector → Bool)
    (v : Nat) :
    (sels.filterMap fun s => if p s then some v else none) =
      (sels.filter p).map fun _ => v := by
  induction sels with
  | nil => rfl
  | cons s ss ih =>
    by_cases h : p s
    · simp [List.filterMap_cons, List.filter_cons, h, ih]
    · simp [List.filterMap_cons, List.filter_cons, h, ih]

lemma colScanAux_eq_flatMap (sels : List Selector) (len : Nat) :
    ∀ (cols : List (List Char)) (idx : Nat),
      colScanAux sels len idx cols =
        (List.range' idx cols.length).flatMap fun i =>
          (sels.filter fun s =>
            (itemInSequenceWithState i (cols.getD (i - idx) []) s freshState
              len).member).map fun _ => i := by
  intro cols
  induction cols with
  | nil =>
    intro idx
    rfl
  | cons col rest ih =>
    intro idx
    simp only [colScanAux, List.length_cons, List.range'_succ idx rest.length 1,
      List.flatMap_cons]
    rw [ih (idx + 1)]
    congr 1
    · rw [filterMap_eq_filter_map, Nat.sub_self]
      rfl
    · apply flatMap_congr_of_mem
      intro i hi
      have hge : idx + 1 ≤ i := (List.mem_range'_1.mp hi).1
      have hgd : (col :: rest).getD (i - idx) ([] : List Char) =
          rest.getD (i - (idx + 1)) [] := by
        rw [show i - idx = (i - (idx + 1)) + 1 by omega, List.getD_cons_succ]
      rw [hgd]

/-- C6: on both axes, each clause is evaluated independently and the
matches union with multiplicity, never deduplicated, in clause order.
Column phase (`get_columns_immutable`, fresh `SelectionState` per
call): the export list is built in column-major order and the segment
for each column index `i` is one copy of `i` per reporting clause,
produced by filtering the clause list in clause order.  Row phase
(the loop of `main`, persisted per-selector states): the push events
are exactly the pairs (row index, clause index) in row-major order,
within a row in clause order, and a clause reports a row exactly when
its own independent single-clause scan (`scanSelector`) does — so a
row matched by two clauses is emitted once per reporting clause. -/
theorem c6_union_multiplicity :
    (∀ (row : List Char) (sels : List Selector), sels ≠ [] →
      getColumnsImmutable row sels =
        (List.range (utilsSplitEmptyDelim row).length).flatMap fun i =>
          (sels.filter fun s =>
            (itemInSequenceWithState i ((utilsSplitEmptyDelim row).getD i []) s
              freshState (utilsSplitEmptyDelim row).length).member).map fun _ => i) ∧
    (∀ (sels : List Selector) (rows : List (List Char)),
      rowPhase sels rows =
        (List.range rows.length).flatMap fun r =>
          ((List.range sels.length).filter fun j =>
            decide (r ∈ scanSelector (sels.getD j Selector.new) rows)).map
            fun j => (r, j)) := by
  constructor
  · intro row sels h1
    unfold getColumnsImmutable
    rw [if_neg (by simpa using h1)]
    rw [colScanAux_eq_flatMap sels (utilsSplitEmptyDelim row).length
      (utilsSplitEmptyDelim row) 0]
    rw [List.range_eq_range' (utilsSplitEmptyDelim row).length]
    apply flatMap_congr_of_mem
    intro i _
    rw [Nat.sub_zero]
  · intro sels rows
    unfold rowPhase
    rw [rowPhaseAux_eq rows.length rows 0 (sels.map fun s => (s, freshState))]
    rw [List.range_eq_range' rows.length]
    apply flatMap_congr_of_mem
    intro r _
    rw [List.length_map, List.range_eq_range' sels.length]
    congr 1
    apply List.filter_congr
    intro j hj
    have hjlt : j < sels.length := by
      have := (List.mem_range'_1.mp hj).2
      omega
    rw [getD_map_of_lt sels _ j dPair Selector.new hjlt]
    rfl

/-- C6 witness: the two-item header with two default clauses exports
column 0 once per clause, and the row phase over two rows with two
default clauses emits the pairs given by the independent per-clause
scans, via the theorem at concrete inputs. -/
theorem c6_union_multiplicity_witness :
    ([Selector.new, Selector.new] ≠ ([] : List Selector)) ∧
    getColumnsImmutable ['a', '\n', 'b'] [Selector.new, Selector.new] =
      (List.range (utilsSplitEmptyDelim ['a', '\n', 'b']).length).flatMap (fun i =>
        ([Selector.new, Selector.new].filter fun s =>
          (itemInSequenceWithState i
            ((utilsSplitEmptyDelim ['a', '\n', 'b']).getD i []) s freshState
            (utilsSplitEmptyDelim ['a', '\n', 'b']).length).member).map fun _ => i) ∧
    rowPhase [Selector.new, Selector.new] [['x'], ['y']] =
      (List.range 2).flatMap (fun r =>
        ((List.range 2).filter fun j =>
          decide (r ∈ scanSelector ([Selector.new, Selector.new].getD j Selector.new)
            [['x'], ['y']])).map fun j => (r, j)) :=
  ⟨by decide,
    c6_union_multiplicity.1 ['a', '\n', 'b'] [Selector.new, Selector.new] (by decide),
    c6_union_multiplicity.2 [Selector.new, Selector.new] [['x'], ['y']]⟩
